import Mathlib

/-!
Verification development for the magdl BitTorrent client.

Wire buffers are modelled as `List Nat` (one entry per byte); multi-byte
big-endian integers are read and written explicitly.  Fallible Rust code
(`Result`, and `panic!`, which aborts the surrounding task) is modelled with
`Option`/`Except`.  Buffer mutation (`BytesMut`) is modelled by explicit
state passing: each decoder returns its result together with the buffer as
it stands after the call, mirroring the `backup`/restore discipline of the
source.
-/

/-- Big-endian u16 read of the first two bytes (`byteorder::BigEndian::read_u16`). -/
def readU16 (l : List Nat) : Nat :=
  l.headD 0 * 256 + (l.drop 1).headD 0

/-- Big-endian u32 read of the first four bytes (`byteorder::BigEndian::read_u32`). -/
def readU32 (l : List Nat) : Nat :=
  l.headD 0 * 16777216 + (l.drop 1).headD 0 * 65536 +
    (l.drop 2).headD 0 * 256 + (l.drop 3).headD 0

/-- Big-endian u64 read of the first eight bytes (`byteorder::BigEndian::read_u64`). -/
def readU64 (l : List Nat) : Nat :=
  readU32 (l.take 4) * 4294967296 + readU32 ((l.drop 4).take 4)

/-- Big-endian i64 read (`byteorder::BigEndian::read_i64`): the eight bytes as a
two's-complement signed integer. -/
def readI64 (l : List Nat) : Int :=
  let n := readU64 l
  if n < 9223372036854775808 then (n : Int) else (n : Int) - 18446744073709551616

/-- Big-endian u32 write (`put_u32` / `BigEndian::write_u32`): four bytes. -/
def writeU32 (n : Nat) : List Nat :=
  [n / 16777216 % 256, n / 65536 % 256, n / 256 % 256, n % 256]

namespace Codec

/-- The 19 ASCII bytes of the literal `"BitTorrent protocol"`
(`peer_codec.rs`, `BITTORRENT_PROTOCOL`). -/
def BITTORRENT_PROTOCOL : List Nat :=
  [66, 105, 116, 84, 111, 114, 114, 101, 110, 116, 32,
   112, 114, 111, 116, 111, 99, 111, 108]

/-- From `peer_codec.rs`: `struct Handshake { pstr, info_hash, peer_id }`. -/
structure Handshake where
  pstr : List Nat
  info_hash : List Nat
  peer_id : List Nat
deriving DecidableEq

/-- From `peer_codec.rs`, `Handshake::decode`.  Returns the decode outcome together
with the buffer after the call (`Err` restores the backup; fewer than 68
remaining bytes is incomplete, i.e. `Ok(None)`). -/
def Handshake.decode (bytes : List Nat) : Except Unit (Option Handshake) × List Nat :=
  if bytes.length < 68 then (.ok none, bytes)
  else if bytes.headD 0 ≠ 19 then (.error (), bytes)
  else if (bytes.drop 1).take 19 ≠ BITTORRENT_PROTOCOL then (.error (), bytes)
  else
    (.ok (some ⟨(bytes.drop 1).take 19,
      (((bytes.drop 1).drop 19).drop 8).take 20,
      ((((bytes.drop 1).drop 19).drop 8).drop 20).take 20⟩),
     ((((bytes.drop 1).drop 19).drop 8).drop 20).drop 20)

/-- From `peer_codec.rs`, `Handshake::encode`: `pstrlen` byte (the length as a `u8`),
the pstr, eight zero reserved bytes, then `info_hash` and `peer_id`. -/
def Handshake.encode (h : Handshake) : List Nat :=
  h.pstr.length % 256 :: h.pstr ++ List.replicate 8 0 ++ h.info_hash ++ h.peer_id

/-- From `peer_codec.rs`: `struct Data { message_id: u8, payload: Bytes }`. -/
structure Data where
  message_id : Nat
  payload : List Nat
deriving DecidableEq

/-- From `peer_codec.rs`, `Data::decode`: needs a 4-byte length prefix; a zero
length is a keep-alive decoded as `message_id = 0` with empty payload; an
unfinished frame restores the backup buffer and is incomplete. -/
def Data.decode (bytes : List Nat) : Option Data × List Nat :=
  if bytes.length < 4 then (none, bytes)
  else if readU32 (bytes.take 4) = 0 then (some ⟨0, []⟩, bytes.drop 4)
  else if (bytes.drop 4).length < readU32 (bytes.take 4) then (none, bytes)
  else
    (some ⟨(bytes.drop 4).headD 0,
      ((bytes.drop 4).drop 1).take (readU32 (bytes.take 4) - 1)⟩,
     ((bytes.drop 4).drop 1).drop (readU32 (bytes.take 4) - 1))

/-- From `peer_codec.rs`, `Data::encode`: u32 length prefix (`1 + payload.len()`
cast to `u32`), the id byte, then the payload. -/
def Data.encode (d : Data) : List Nat :=
  writeU32 ((1 + d.payload.length) % 4294967296) ++ d.message_id % 256 :: d.payload

/-- From `peer_codec.rs`: `enum PeerFrame`. -/
inductive PeerFrame where
  | handshake (h : Handshake)
  | data (d : Data)
deriving DecidableEq

/-- From `peer_codec.rs`, `impl Decoder for PeerCodec`: try `Data::decode` first,
then `Handshake::decode` on the (restored) buffer. -/
def PeerCodec.decode (buf : List Nat) : Except Unit (Option PeerFrame) × List Nat :=
  match Data.decode buf with
  | (some d, rest) => (.ok (some (.data d)), rest)
  | (none, buf1) =>
    match Handshake.decode buf1 with
    | (.error e, rest) => (.error e, rest)
    | (.ok (some h), rest) => (.ok (some (.handshake h)), rest)
    | (.ok none, rest) => (.ok none, rest)

/-- From `peer_codec.rs`, `impl Encoder for PeerCodec`. -/
def PeerCodec.encode (f : PeerFrame) : List Nat :=
  match f with
  | .handshake h => h.encode
  | .data d => d.encode

end Codec

/-- From `enum PeerMessageType` with wire codes 0..=9.  `peer_message.rs` and
`peer_connection.rs` each define this identical enum; one model serves both. -/
inductive PeerMessageType where
  | Choke
  | Unchoke
  | Interested
  | NotInterested
  | Have
  | Bitfield
  | Request
  | Piece
  | Cancel
  | Port
deriving DecidableEq

/-- From `impl From<u8> for PeerMessageType` (identical in `peer_message.rs` and
`peer_connection.rs`): codes 0..=9 map to the ten variants; any other value
hits `panic!`, which aborts that connection's task and is modelled as `none`. -/
def PeerMessageType.fromU8 (v : Nat) : Option PeerMessageType :=
  if v = 0 then some .Choke
  else if v = 1 then some .Unchoke
  else if v = 2 then some .Interested
  else if v = 3 then some .NotInterested
  else if v = 4 then some .Have
  else if v = 5 then some .Bitfield
  else if v = 6 then some .Request
  else if v = 7 then some .Piece
  else if v = 8 then some .Cancel
  else if v = 9 then some .Port
  else none

/-- From `PeerMessageType::raw_value` (same two files): the wire code of a variant. -/
def PeerMessageType.raw_value : PeerMessageType → Nat
  | .Choke => 0
  | .Unchoke => 1
  | .Interested => 2
  | .NotInterested => 3
  | .Have => 4
  | .Bitfield => 5
  | .Request => 6
  | .Piece => 7
  | .Cancel => 8
  | .Port => 9

namespace Main

/-- From `main.rs`: `struct PeerState` with its `Default` values
(`choked = true`, `interested = false`, `am_choked = true`,
`am_interested = false`, empty bitfield). -/
structure PeerState where
  choked : Bool := true
  interested : Bool := false
  am_choked : Bool := true
  am_interested : Bool := false
  bitfield : List Bool := []
deriving DecidableEq

/-- The inner loop of `Peer::process_bitfield` for one byte, unrolled: for `i`
in `0..8` the pushed bit is `(byte & (0b10000000 >> i)) > 0`, so the masks are
128, 64, 32, 16, 8, 4, 2, 1 — most significant bit first. -/
def byteBits (b : Nat) : List Bool :=
  [decide (0 < b.land 128), decide (0 < b.land 64), decide (0 < b.land 32),
   decide (0 < b.land 16), decide (0 < b.land 8), decide (0 < b.land 4),
   decide (0 < b.land 2), decide (0 < b.land 1)]

/-- From `main.rs`, `Peer::process_bitfield`: push eight booleans per payload byte,
MSB first, in payload order. -/
def process_bitfield : List Nat → List Bool
  | [] => []
  | b :: rest => byteBits b ++ process_bitfield rest

/-- From `main.rs`, `Peer::handle_message`: the state-table part of the coordinator.
`Have` reads a big-endian u32 from the payload and indexes the bitfield (both
the read of a short payload and an out-of-range index panic in Rust, modelled
as `none`); `Request`, `Piece`, `Cancel` and `Port` are `todo!()` (a panic,
modelled as `none`).  Note that a decoded keep-alive arrives here as `Choke`,
because `main.rs` converts its `message_id = 0` with `PeerMessageType::from`. -/
def handle_message (st : PeerState) (t : PeerMessageType) (payload : List Nat) :
    Option PeerState :=
  match t with
  | .Choke => some { st with am_choked := true }
  | .Unchoke => some { st with am_choked := false }
  | .Interested => some { st with interested := true }
  | .NotInterested => some { st with interested := false }
  | .Have =>
    if payload.length < 4 then none
    else
      let i := readU32 (payload.take 4)
      if i < st.bitfield.length then some { st with bitfield := st.bitfield.set i true }
      else none
  | .Bitfield => some { st with bitfield := process_bitfield payload }
  | .Request => none
  | .Piece => none
  | .Cancel => none
  | .Port => none

end Main

namespace PC

/-- From `peer_connection.rs`: `struct Data { message_id: u8, payload: Vec<u8> }`. -/
structure Data where
  message_id : Nat
  payload : List Nat
deriving DecidableEq

/-- From `peer_connection.rs`, `Data::from_bytes`: parse one data frame from the
front of the slice, returning the frame and the number of bytes consumed.
Unknown ids above 9 are a `"Bad message id"` error. -/
def Data.from_bytes (bytes : List Nat) : Except String (Data × Nat) :=
  if bytes.length < 4 then .error "Not enough bytes"
  else
    let message_len := readU32 (bytes.take 4)
    if message_len = 0 then .ok (⟨0, []⟩, 4)
    else if bytes.length < 5 then .error "Not enough bytes"
    else
      let message_id := (bytes.drop 4).headD 0
      if 9 < message_id then .error "Bad message id"
      else
        let payload_size := message_len - 1
        if bytes.length < 5 + payload_size then .error "Not enough payload"
        else .ok (⟨message_id, (bytes.drop 5).take payload_size⟩, 5 + payload_size)

/-- From `peer_connection.rs`: `struct Handshake` (pstr plus two 20-byte fields). -/
structure Handshake where
  pstr : List Nat
  info_hash : List Nat
  peer_id : List Nat
deriving DecidableEq

/-- From `peer_connection.rs`: `enum PeerFrame` as produced by `try_read`. -/
inductive PeerFrame where
  | handshake (h : Handshake)
  | data (d : Data)
  | disconnected
deriving DecidableEq

/-- From `peer_connection.rs`: `struct PeerMessage` (typed message tagged with the
peer's address, sent on the shared channel to the coordinator). -/
structure PeerMessage where
  message_type : PeerMessageType
  payload : List Nat
  addr : Nat
deriving DecidableEq

/-- Result of `TcpConnection::try_read` in `PeerConnection::handle_messages`:
either a list of decoded frames or an I/O failure (any TCP error or EOF). -/
inductive ReadResult where
  | ok (frames : List PeerFrame)
  | err
deriving DecidableEq

/-- State of `receiver.try_recv()` at this iteration of `handle_messages`. -/
inductive RecvResult where
  | got (m : PeerMessage)
  | empty
  | closed
deriving DecidableEq

/-- How one iteration of `handle_messages` ends: loop again, or exit the
session with an error (`anyhow::bail!` or a panic). -/
inductive Outcome where
  | looped
  | failed (msg : String)
deriving DecidableEq

/-- The frame loop inside one iteration of `handle_messages`: a `Handshake`
frame bails immediately, a `Data` frame is converted (`PeerMessageType::from`
panics on an id above 9, modelled as a failure) and forwarded, and a
`Disconnected` frame sends the synthetic `Cancel` and bails.  Returns the
messages sent to the coordinator channel and the bail reason, if any. -/
def processFrames (addr : Nat) : List PeerFrame → List PeerMessage × Option String
  | [] => ([], none)
  | .handshake _ :: _ => ([], some "Multiple handshake responses")
  | .data d :: rest =>
    match PeerMessageType.fromU8 d.message_id with
    | none => ([], some "panicked: invalid peer message type")
    | some t =>
      let (ms, e) := processFrames addr rest
      (⟨t, d.payload, addr⟩ :: ms, e)
  | .disconnected :: _ => ([⟨.Cancel, [], addr⟩], some "disconnected")

/-- One iteration of `PeerConnection::handle_messages`: a failing `try_read`
is replaced by the single frame `[Disconnected]`; the frames are processed;
then the outbound channel is polled (`Empty` continues, `Disconnected` bails).
Returns the messages delivered to the coordinator channel and the outcome. -/
def sessionStep (addr : Nat) (readRes : ReadResult) (recvRes : RecvResult) :
    List PeerMessage × Outcome :=
  let frames := match readRes with
    | .ok fs => fs
    | .err => [.disconnected]
  match processFrames addr frames with
  | (ms, some e) => (ms, .failed e)
  | (ms, none) =>
    match recvRes with
    | .got _ => (ms, .looped)
    | .empty => (ms, .looped)
    | .closed => (ms, .failed "oneshot channel closed")

/-- Count of synthetic `Cancel` messages in a batch sent to the coordinator. -/
def countCancel (ms : List PeerMessage) : Nat :=
  (ms.filter (fun m => m.message_type = PeerMessageType.Cancel)).length

end PC

namespace Tracker

/-- A `SocketAddr` from a compact peer entry: four IPv4 octets and a port. -/
structure PeerAddr where
  o1 : Nat
  o2 : Nat
  o3 : Nat
  o4 : Nat
  port : Nat
deriving DecidableEq

/-- From `tracker_stream.rs` / `lib.rs`, `AnnounceResponse::from_bytes`, peer-list
loop: `peer_list.chunks(6)`, four IPv4 octets then a big-endian u16 port.
Only reached when the list length is a multiple of 6. -/
def parsePeers : List Nat → List PeerAddr
  | a :: b :: c :: d :: e :: f :: rest => ⟨a, b, c, d, e * 256 + f⟩ :: parsePeers rest
  | _ => []

/-- From `tracker_stream.rs` / `lib.rs`: `struct AnnounceResponse`. -/
structure AnnounceResponse where
  action : Nat
  transaction_id : Nat
  interval : Nat
  leechers : Nat
  seeders : Nat
  peers : List PeerAddr
deriving DecidableEq

/-- From `AnnounceResponse::from_bytes` (identical in `tracker_stream.rs` and
`lib.rs`): five big-endian u32 header fields, then the peer list
`&bytes[20..length]`.  A list length that is not a multiple of 6 hits
`panic!("Invalid peer list size")`, modelled as an error. -/
def AnnounceResponse.from_bytes (bytes : List Nat) (length : Nat) :
    Except String AnnounceResponse :=
  let peer_list := (bytes.take length).drop 20
  if peer_list.length % 6 ≠ 0 then .error "Invalid peer list size"
  else
    .ok ⟨readU32 (bytes.take 4), readU32 ((bytes.drop 4).take 4),
         readU32 ((bytes.drop 8).take 4), readU32 ((bytes.drop 12).take 4),
         readU32 ((bytes.drop 16).take 4), parsePeers peer_list⟩

/-- From `tracker_stream.rs`: `struct ConnectResponse` and its `from_bytes`
(action, transaction id, connection id at fixed offsets). -/
structure ConnectResponse where
  action : Nat
  transaction_id : Nat
  connection_id : Int
deriving DecidableEq

/-- From `ConnectResponse::from_bytes`: u32 action, u32 transaction id, i64
connection id, all big-endian at offsets 0, 4 and 8. -/
def ConnectResponse.from_bytes (bytes : List Nat) : ConnectResponse :=
  ⟨readU32 (bytes.take 4), readU32 ((bytes.drop 4).take 4),
   readI64 ((bytes.drop 8).take 8)⟩

/-- From `TrackerConnection::handshake`, validation of a received connect-response
datagram (lines after the receive loop): parse it, reject on a transaction-id
mismatch, otherwise yield the connection id.  The `action` field is never
inspected. -/
def handshakeValidate (bytes : List Nat) (reqTid : Nat) : Except String Int :=
  let response := ConnectResponse.from_bytes bytes
  if response.transaction_id ≠ reqTid then .error "Mismatched transaction ids"
  else .ok response.connection_id

/-- From `TrackerConnection::announce`, validation of a received announce-response
datagram of `length` bytes: parse it (which may reject the peer-list length),
reject on a transaction-id mismatch, otherwise yield the peer list.  The
`action` field is never inspected. -/
def announceValidate (bytes : List Nat) (length : Nat) (reqTid : Nat) :
    Except String (List PeerAddr) :=
  match AnnounceResponse.from_bytes bytes length with
  | .error e => .error e
  | .ok response =>
    if response.transaction_id ≠ reqTid then .error "Mismatched transaction ids"
    else .ok response.peers

end Tracker

namespace Spec

/-- Modelled from the spec: piece status (spec section 3, `Piece`); the piece
plan with `PieceStatus` is absent from the sources under `src/`. -/
inductive PieceStatus where
  | waiting
  | inProgress
  | complete
deriving DecidableEq

/-- Modelled from the spec: peer status (spec section 3, `status` of a peer);
no `PeerStatus` exists in the sources under `src/`. -/
inductive PeerStatus where
  | waiting
  | downloading
  | disconnected
deriving DecidableEq

/-- Modelled from the spec: a frame the coordinator queues on a peer's
outbound channel (an `Interested` frame, or a `Request` with u32 payload
fields piece index, begin offset and block length). -/
inductive OutFrame where
  | interested
  | request (index beginOff blockLen : Nat)
deriving DecidableEq

/-- Modelled from the spec: per-peer state as in section 3 (same record as
`main.rs` `PeerState`, reused), plus the peer status and the outbound channel
contents (frames queued by the coordinator, in send order). -/
structure Peer where
  state : Main.PeerState
  status : PeerStatus
  outbound : List OutFrame
deriving DecidableEq

/-- Modelled from the spec: a fresh peer inserted by the coordinator
(default `PeerState`, status `Waiting`, nothing sent yet). -/
def freshPeer : Peer := ⟨{}, .waiting, []⟩

/-- Modelled from the spec: the inbound messages of the coordinator table in
section 4.4 (wire messages plus the explicit keep-alive row). -/
inductive InMsg where
  | choke
  | unchoke
  | interested
  | notInterested
  | haveIdx (i : Nat)
  | bitfield (payload : List Nat)
  | pieceBlk (payload : List Nat)
  | requestBlk (payload : List Nat)
  | cancel
  | port
  | keepAlive
deriving DecidableEq

/-- Modelled from the spec: the per-peer effect of one inbound message
(section 4.4 table).  `Bitfield` replaces the bitfield MSB-first (the same
byte expansion as `main.rs` `process_bitfield`); the synthetic `Cancel`
marks the peer `Disconnected`; `Request` is not served, `Port` is ignored,
a keep-alive is a no-op, and a `Piece` block write is external storage's
concern, so neither changes peer state. -/
def applyMsgPeer (msg : InMsg) (p : Peer) : Peer :=
  match msg with
  | .choke => { p with state := { p.state with am_choked := true } }
  | .unchoke => { p with state := { p.state with am_choked := false } }
  | .interested => { p with state := { p.state with interested := true } }
  | .notInterested => { p with state := { p.state with interested := false } }
  | .haveIdx i => { p with state := { p.state with bitfield := p.state.bitfield.set i true } }
  | .bitfield payload => { p with state := { p.state with bitfield := Main.process_bitfield payload } }
  | .cancel => { p with status := .disconnected }
  | _ => p

/-- Modelled from the spec: the plan effect of one inbound message — on a
`Bitfield` message an empty plan is initialised to `payload length × 8`
pieces, all `Waiting` (section 4.4 table); nothing else touches the plan at
this stage. -/
def planAfterMsg (plan : List PieceStatus) (msg : InMsg) : List PieceStatus :=
  match msg with
  | .bitfield payload =>
    if plan.isEmpty then List.replicate (payload.length * 8) .waiting else plan
  | _ => plan

/-- Modelled from the spec: the coordinator state — the peer registry (an
ordered view of the `SocketAddr → Peer` map, addresses as `Nat`) and the
piece plan (section 4.4). -/
structure Coord where
  peers : List (Nat × Peer)
  plan : List PieceStatus
deriving DecidableEq

/-- Modelled from the spec, section 4.4 step 1: if the sending address is not
yet registered, insert a fresh `Waiting` peer. -/
def registerPeer (peers : List (Nat × Peer)) (addr : Nat) : List (Nat × Peer) :=
  if peers.any (fun e => e.fst = addr) then peers else peers ++ [(addr, freshPeer)]

/-- Modelled from the spec, section 4.4 steps 1-2: register the sender if
needed, apply the message to that peer's state, and update the plan. -/
def phase12 (c : Coord) (addr : Nat) (msg : InMsg) : Coord :=
  ⟨(registerPeer c.peers addr).map
      (fun e => if e.fst = addr then (e.fst, applyMsgPeer msg e.snd) else e),
   planAfterMsg c.plan msg⟩

/-- Modelled from the spec, section 4.4 step 3: the derived peer set —
not `Disconnected` and not choking us. -/
def eligible (p : Peer) : Bool :=
  decide (p.status ≠ PeerStatus.disconnected) && !p.state.am_choked

/-- Modelled from the spec, section 4.4 step 4: for every derived peer that is
not yet interested, queue an `Interested` frame and flip the bit
optimistically. -/
def interestStep (p : Peer) : Peer :=
  if eligible p && !p.state.am_interested then
    { p with state := { p.state with am_interested := true },
             outbound := p.outbound ++ [.interested] }
  else p

/-- Modelled from the spec, section 4.4 step 5: the index of the first piece
whose status is `Waiting`. -/
def firstWaitingIdx : List PieceStatus → Option Nat
  | [] => none
  | .waiting :: _ => some 0
  | _ :: rest => (firstWaitingIdx rest).map (· + 1)

/-- Modelled from the spec, section 4.4 step 5: an unchoked peer currently in
status `Waiting` whose bitfield has the selected piece takes it. -/
def takes (idx : Nat) (p : Peer) : Bool :=
  decide (p.status = PeerStatus.waiting) && !p.state.am_choked &&
    p.state.bitfield.getD idx false

/-- Modelled from the spec, section 4.4 step 5: a peer that takes the selected
piece transitions to `Downloading` and is sent
`Request(index, begin = 0, length = 16384)`. -/
def requestStep (idx : Nat) (p : Peer) : Peer :=
  if takes idx p then
    { p with status := .downloading,
             outbound := p.outbound ++ [.request idx 0 16384] }
  else p

/-- Modelled from the spec, section 4.4 steps 3-5: queue `Interested` where
due, then select the first `Waiting` piece and hand it to every taker,
marking the piece `InProgress` when at least one peer takes it. -/
def phase345 (c : Coord) : Coord :=
  let peers2 := c.peers.map (fun e => (e.fst, interestStep e.snd))
  match firstWaitingIdx c.plan with
  | none => ⟨peers2, c.plan⟩
  | some idx =>
    ⟨peers2.map (fun e => (e.fst, requestStep idx e.snd)),
     if peers2.any (fun e => takes idx e.snd) then c.plan.set idx .inProgress
     else c.plan⟩

/-- Modelled from the spec, section 4.4: the coordinator's handling of one
inbound message, start to finish. -/
def step (c : Coord) (addr : Nat) (msg : InMsg) : Coord :=
  phase345 (phase12 c addr msg)

end Spec

/-- Support for the C1 witness: a coordinator with one registered peer at
address 7 that is unchoked, not yet interested, `Waiting`, and has piece 0 of
a one-piece plan. -/
def c1Wc : Spec.Coord :=
  ⟨[(7, ⟨⟨true, false, false, false, [true]⟩, .waiting, []⟩)], [.waiting]⟩

/-- Support for the C1 witness: the coordinator after phases 1-2. -/
def c1Wmid : Spec.Coord := Spec.phase12 c1Wc 7 .keepAlive

/-- Support for the C1 witness: the peer after phases 1-2. -/
def c1Wp : Spec.Peer := (c1Wmid.peers.getD 0 (0, Spec.freshPeer)).snd

/-- Support for the C1 witness: the peer after the full step. -/
def c1Wp2 : Spec.Peer :=
  ((Spec.step c1Wc 7 .keepAlive).peers.getD 0 (0, Spec.freshPeer)).snd

section ListHelpers

variable {α β : Type}

theorem getD_append_left (l l' : List α) (i : Nat) (d : α) (h : i < l.length) :
    (l ++ l').getD i d = l.getD i d := by
  induction l generalizing i with
  | nil => simp at h
  | cons a t ih =>
    cases i with
    | zero => rfl
    | succ j => simpa using ih j (by simpa using h)

theorem getD_append_right (l l' : List α) (k : Nat) (d : α) :
    (l ++ l').getD (l.length + k) d = l'.getD k d := by
  induction l with
  | nil => simp
  | cons a t ih => simpa [Nat.succ_add] using ih

theorem getD_map_of_lt (f : α → β) (l : List α) (i : Nat) (da : α) (db : β)
    (h : i < l.length) : (l.map f).getD i db = f (l.getD i da) := by
  induction l generalizing i with
  | nil => simp at h
  | cons a t ih =>
    cases i with
    | zero => rfl
    | succ j => simpa using ih j (by simpa using h)

theorem getD_mem_of_lt (l : List α) (i : Nat) (d : α) (h : i < l.length) :
    l.getD i d ∈ l := by
  induction l generalizing i with
  | nil => simp at h
  | cons a t ih =>
    cases i with
    | zero => simp
    | succ j => simpa using Or.inr (ih j (by simpa using h))

theorem headD_take (l : List α) (n : Nat) (d : α) (h : 0 < n) :
    (l.take n).headD d = l.headD d := by
  cases l with
  | nil => simp
  | cons a t =>
    cases n with
    | zero => omega
    | succ m => rfl

end ListHelpers

theorem land_pow_pos (b k : Nat) : decide (0 < b.land (2 ^ k)) = b.testBit k := by
  rw [show b.land (2 ^ k) = b &&& 2 ^ k from rfl, Nat.and_two_pow]
  cases h : b.testBit k <;> simp

theorem byteBits_length (b : Nat) : (Main.byteBits b).length = 8 := rfl

theorem byteBits_getD (b j : Nat) (h : j < 8) :
    (Main.byteBits b).getD j false = b.testBit (7 - j) := by
  interval_cases j
  · rw [show (Main.byteBits b).getD 0 false = decide (0 < b.land 128) from rfl]
    exact land_pow_pos b 7
  · rw [show (Main.byteBits b).getD 1 false = decide (0 < b.land 64) from rfl]
    exact land_pow_pos b 6
  · rw [show (Main.byteBits b).getD 2 false = decide (0 < b.land 32) from rfl]
    exact land_pow_pos b 5
  · rw [show (Main.byteBits b).getD 3 false = decide (0 < b.land 16) from rfl]
    exact land_pow_pos b 4
  · rw [show (Main.byteBits b).getD 4 false = decide (0 < b.land 8) from rfl]
    exact land_pow_pos b 3
  · rw [show (Main.byteBits b).getD 5 false = decide (0 < b.land 4) from rfl]
    exact land_pow_pos b 2
  · rw [show (Main.byteBits b).getD 6 false = decide (0 < b.land 2) from rfl]
    exact land_pow_pos b 1
  · rw [show (Main.byteBits b).getD 7 false = decide (0 < b.land 1) from rfl]
    exact land_pow_pos b 0

theorem process_bitfield_length (payload : List Nat) :
    (Main.process_bitfield payload).length = 8 * payload.length := by
  induction payload with
  | nil => rfl
  | cons b rest ih =>
    simp only [Main.process_bitfield, List.length_append, byteBits_length, ih,
      List.length_cons]
    ring

theorem process_bitfield_getD (payload : List Nat) (i j : Nat)
    (hi : i < payload.length) (hj : j < 8) :
    (Main.process_bitfield payload).getD (8 * i + j) false =
      (payload.getD i 0).testBit (7 - j) := by
  induction payload generalizing i with
  | nil => simp at hi
  | cons b rest ih =>
    cases i with
    | zero =>
      have h8 : j < (Main.byteBits b).length := by rw [byteBits_length]; exact hj
      simpa [Main.process_bitfield] using
        (getD_append_left (Main.byteBits b) (Main.process_bitfield rest) j false h8).trans
          (byteBits_getD b j hj)
    | succ i' =>
      have hidx : 8 * (i' + 1) + j = (Main.byteBits b).length + (8 * i' + j) := by
        rw [byteBits_length]; ring
      calc (Main.process_bitfield (b :: rest)).getD (8 * (i' + 1) + j) false
          = (Main.byteBits b ++ Main.process_bitfield rest).getD
              ((Main.byteBits b).length + (8 * i' + j)) false := by rw [hidx]; rfl
        _ = (Main.process_bitfield rest).getD (8 * i' + j) false :=
            getD_append_right _ _ _ _
        _ = (rest.getD i' 0).testBit (7 - j) := ih i' (by simpa using hi)
        _ = ((b :: rest).getD (i' + 1) 0).testBit (7 - j) := by rw [List.getD_cons_succ]

theorem fw_lt : ∀ (l : List Spec.PieceStatus) (i : Nat),
    Spec.firstWaitingIdx l = some i → i < l.length := by
  intro l
  induction l with
  | nil => intro i h; simp [Spec.firstWaitingIdx] at h
  | cons s rest ih =>
    intro i h
    match s, h with
    | .waiting, h =>
      simp only [Spec.firstWaitingIdx] at h
      cases h
      simp
    | .inProgress, h =>
      simp only [Spec.firstWaitingIdx] at h
      cases hr : Spec.firstWaitingIdx rest with
      | none => rw [hr] at h; simp at h
      | some j =>
        rw [hr] at h
        simp at h
        have := ih j hr
        simp only [List.length_cons]
        omega
    | .complete, h =>
      simp only [Spec.firstWaitingIdx] at h
      cases hr : Spec.firstWaitingIdx rest with
      | none => rw [hr] at h; simp at h
      | some j =>
        rw [hr] at h
        simp at h
        have := ih j hr
        simp only [List.length_cons]
        omega

theorem interestStep_disconnected (p : Spec.Peer)
    (h : p.status = Spec.PeerStatus.disconnected) : Spec.interestStep p = p := by
  unfold Spec.interestStep
  rw [if_neg (by simp [Spec.eligible, h])]

theorem requestStep_disconnected (idx : Nat) (p : Spec.Peer)
    (h : p.status = Spec.PeerStatus.disconnected) : Spec.requestStep idx p = p := by
  unfold Spec.requestStep
  rw [if_neg (by simp [Spec.takes, h])]

theorem phase345_disconnected (m : Spec.Coord) (i : Nat) (hi : i < m.peers.length)
    (hst : ((m.peers.getD i (0, Spec.freshPeer)).snd).status = Spec.PeerStatus.disconnected) :
    (((Spec.phase345 m).peers.getD i (0, Spec.freshPeer)).snd).status =
      Spec.PeerStatus.disconnected := by
  rcases hfw : Spec.firstWaitingIdx m.plan with _ | idx0
  · have hph : (Spec.phase345 m).peers =
        m.peers.map (fun e => (e.fst, Spec.interestStep e.snd)) := by
      simp only [Spec.phase345, hfw]
    rw [hph, getD_map_of_lt _ _ i (0, Spec.freshPeer) (0, Spec.freshPeer) hi]
    show (Spec.interestStep ((m.peers.getD i (0, Spec.freshPeer)).snd)).status = _
    rw [interestStep_disconnected _ hst, hst]
  · have hph : (Spec.phase345 m).peers =
        (m.peers.map (fun e => (e.fst, Spec.interestStep e.snd))).map
          (fun e => (e.fst, Spec.requestStep idx0 e.snd)) := by
      simp only [Spec.phase345, hfw]
    rw [hph, getD_map_of_lt _ _ i (0, Spec.freshPeer) (0, Spec.freshPeer)
      (by rw [List.length_map]; exact hi)]
    show (Spec.requestStep idx0
      (((m.peers.map (fun e => (e.fst, Spec.interestStep e.snd))).getD i
        (0, Spec.freshPeer)).snd)).status = _
    rw [getD_map_of_lt _ _ i (0, Spec.freshPeer) (0, Spec.freshPeer) hi]
    show (Spec.requestStep idx0
      (Spec.interestStep ((m.peers.getD i (0, Spec.freshPeer)).snd))).status = _
    rw [interestStep_disconnected _ hst, requestStep_disconnected _ _ hst, hst]

theorem phase12_at_addr (c : Spec.Coord) (addr : Nat) (msg : Spec.InMsg) (i : Nat)
    (hi : i < c.peers.length)
    (hfst : (c.peers.getD i (0, Spec.freshPeer)).fst = addr) :
    (Spec.phase12 c addr msg).peers.getD i (0, Spec.freshPeer) =
      (addr, Spec.applyMsgPeer msg ((c.peers.getD i (0, Spec.freshPeer)).snd)) := by
  have hany : c.peers.any (fun e => e.fst = addr) = true := by
    rw [List.any_eq_true]
    exact ⟨_, getD_mem_of_lt _ _ _ hi, by rw [hfst]; simp⟩
  have hreg : Spec.registerPeer c.peers addr = c.peers := by
    unfold Spec.registerPeer
    rw [if_pos hany]
  unfold Spec.phase12
  simp only [hreg]
  rw [getD_map_of_lt _ _ i (0, Spec.freshPeer) (0, Spec.freshPeer) hi]
  show (if (c.peers.getD i (0, Spec.freshPeer)).fst = addr
    then ((c.peers.getD i (0, Spec.freshPeer)).fst,
      Spec.applyMsgPeer msg (c.peers.getD i (0, Spec.freshPeer)).snd)
    else c.peers.getD i (0, Spec.freshPeer)) = _
  rw [if_pos hfst, hfst]

theorem interestStep_on (p : Spec.Peer) (helig : Spec.eligible p = true)
    (hint : p.state.am_interested = false) :
    Spec.interestStep p =
      { p with state := { p.state with am_interested := true },
               outbound := p.outbound ++ [Spec.OutFrame.interested] } := by
  unfold Spec.interestStep
  rw [if_pos (by rw [helig, hint]; rfl)]

/-- C1: after the spec-modelled coordinator processes any inbound message,
every registered peer that is not `Disconnected`, is unchoked and was not yet
marked interested is queued an `Interested` frame on its outbound channel and
has its `am_interested` flag set; and if such a peer was in status `Waiting`
and its bitfield has the first `Waiting` piece of the plan, the coordinator
also queues `Request(index, begin = 0, length = 16384)` for that piece,
marks the piece `InProgress` and the peer `Downloading`.  Here `mid` is the
coordinator state right after registration and the state table (phases 1-2),
`p` the peer's record in `mid` at position `i`, and `p2` its record after the
full step. -/
theorem c1_interest_and_first_waiting_request
    (c : Spec.Coord) (addr : Nat) (msg : Spec.InMsg) (i : Nat)
    (mid : Spec.Coord) (p p2 : Spec.Peer)
    (hmid : mid = Spec.phase12 c addr msg)
    (hp : p = (mid.peers.getD i (0, Spec.freshPeer)).snd)
    (hp2 : p2 = ((Spec.step c addr msg).peers.getD i (0, Spec.freshPeer)).snd)
    (hi : i < mid.peers.length)
    (hnd : p.status ≠ Spec.PeerStatus.disconnected)
    (hch : p.state.am_choked = false)
    (hint : p.state.am_interested = false) :
    p2.state.am_interested = true ∧
    (∃ tail, p2.outbound = p.outbound ++ Spec.OutFrame.interested :: tail) ∧
    (∀ idx, p.status = Spec.PeerStatus.waiting →
      Spec.firstWaitingIdx mid.plan = some idx →
      p.state.bitfield.getD idx false = true →
      p2.status = Spec.PeerStatus.downloading ∧
      p2.outbound = p.outbound ++
        [Spec.OutFrame.interested, Spec.OutFrame.request idx 0 16384] ∧
      (Spec.step c addr msg).plan[idx]? = some Spec.PieceStatus.inProgress) := by
  have hstep : Spec.step c addr msg = Spec.phase345 mid := by rw [Spec.step, hmid]
  have helig : Spec.eligible p = true := by
    simp [Spec.eligible, hch, hnd]
  have hIs := interestStep_on p helig hint
  rcases hfw : Spec.firstWaitingIdx mid.plan with _ | idx0
  · have hph : Spec.phase345 mid =
        ⟨mid.peers.map (fun e => (e.fst, Spec.interestStep e.snd)), mid.plan⟩ := by
      simp only [Spec.phase345, hfw]
    have hgd : p2 = Spec.interestStep p := by
      rw [hp2, hstep, hph, hp]
      exact getD_map_of_lt _ _ i (0, Spec.freshPeer) (0, Spec.freshPeer) hi ▸ rfl
    refine ⟨?_, ⟨[], ?_⟩, ?_⟩
    · rw [hgd, hIs]
    · rw [hgd, hIs]
    · intro idx _ hsome _
      cases hsome
  · have hph : Spec.phase345 mid =
        ⟨(mid.peers.map (fun e => (e.fst, Spec.interestStep e.snd))).map
            (fun e => (e.fst, Spec.requestStep idx0 e.snd)),
         if (mid.peers.map (fun e => (e.fst, Spec.interestStep e.snd))).any
              (fun e => Spec.takes idx0 e.snd)
         then mid.plan.set idx0 .inProgress else mid.plan⟩ := by
      simp only [Spec.phase345, hfw]
    have hgd : p2 = Spec.requestStep idx0 (Spec.interestStep p) := by
      rw [hp2, hstep, hph, hp]
      rw [getD_map_of_lt _ _ i (0, Spec.freshPeer) (0, Spec.freshPeer)
        (by rw [List.length_map]; exact hi)]
      rw [getD_map_of_lt _ _ i (0, Spec.freshPeer) (0, Spec.freshPeer) hi]
    cases hT : Spec.takes idx0 (Spec.interestStep p) with
    | false =>
      have hRs : Spec.requestStep idx0 (Spec.interestStep p) = Spec.interestStep p := by
        unfold Spec.requestStep
        rw [if_neg (by rw [hT]; simp)]
      refine ⟨?_, ⟨[], ?_⟩, ?_⟩
      · rw [hgd, hRs, hIs]
      · rw [hgd, hRs, hIs]
      · intro idx hw hsome hbit
        cases hsome
        have hTt : Spec.takes idx0 (Spec.interestStep p) = true := by
          rw [hIs]
          simp [Spec.takes, hw, hch]
          simpa using hbit
        rw [hTt] at hT
        cases hT
    | true =>
      have hRs : Spec.requestStep idx0 (Spec.interestStep p) =
          { Spec.interestStep p with
            status := Spec.PeerStatus.downloading
            outbound := (Spec.interestStep p).outbound ++
              [Spec.OutFrame.request idx0 0 16384] } := by
        unfold Spec.requestStep
        rw [if_pos hT]
      refine ⟨?_, ⟨[Spec.OutFrame.request idx0 0 16384], ?_⟩, ?_⟩
      · rw [hgd, hRs, hIs]
      · rw [hgd, hRs, hIs]
        simp [List.append_assoc]
      · intro idx hw hsome hbit
        cases hsome
        refine ⟨by rw [hgd, hRs], by rw [hgd, hRs, hIs]; simp [List.append_assoc], ?_⟩
        have hmem : ((mid.peers.map (fun e => (e.fst, Spec.interestStep e.snd))).getD i
            (0, Spec.freshPeer)) ∈
            mid.peers.map (fun e => (e.fst, Spec.interestStep e.snd)) :=
          getD_mem_of_lt _ _ _ (by rw [List.length_map]; exact hi)
        have hsnd : ((mid.peers.map (fun e => (e.fst, Spec.interestStep e.snd))).getD i
            (0, Spec.freshPeer)).snd = Spec.interestStep p := by
          rw [getD_map_of_lt _ _ i (0, Spec.freshPeer) (0, Spec.freshPeer) hi, hp]
        have hany : (mid.peers.map (fun e => (e.fst, Spec.interestStep e.snd))).any
            (fun e => Spec.takes idx0 e.snd) = true := by
          rw [List.any_eq_true]
          exact ⟨_, hmem, by rw [hsnd]; exact hT⟩
        rw [hstep, hph]
        simp only [hany, if_true]
        rw [List.getElem?_set_self (fw_lt mid.plan idx0 hfw)]

/-- Witness for C1: the one-peer coordinator (address 7, unchoked, not yet
interested, `Waiting`, bitfield `[true]`, one-piece plan) processes a
keep-alive; the peer is queued `Interested` and `Request(0, 0, 16384)`. -/
theorem c1_witness :
    c1Wp2.state.am_interested = true ∧
    (∃ tail, c1Wp2.outbound = c1Wp.outbound ++ Spec.OutFrame.interested :: tail) ∧
    (∀ idx, c1Wp.status = Spec.PeerStatus.waiting →
      Spec.firstWaitingIdx c1Wmid.plan = some idx →
      c1Wp.state.bitfield.getD idx false = true →
      c1Wp2.status = Spec.PeerStatus.downloading ∧
      c1Wp2.outbound = c1Wp.outbound ++
        [Spec.OutFrame.interested, Spec.OutFrame.request idx 0 16384] ∧
      (Spec.step c1Wc 7 .keepAlive).plan[idx]? = some Spec.PieceStatus.inProgress) :=
  c1_interest_and_first_waiting_request c1Wc 7 .keepAlive 0 c1Wmid c1Wp c1Wp2
    rfl rfl rfl (by decide) (by decide) (by decide) (by decide)

/-- C6, counterexample: a session termination that delivers no `Cancel`.  When
`handle_messages` reads a (stray) `Handshake` frame it bails out immediately:
the session terminates with the `"Multiple handshake responses"` error having
sent zero messages — in particular zero synthetic `Cancel`s — to the
coordinator channel, refuting "terminates for any reason ⟹ exactly one
Cancel". -/
theorem c6_counterexample :
    PC.sessionStep 5 (.ok [.handshake ⟨[], [], []⟩]) .empty =
      ([], .failed "Multiple handshake responses") ∧
    PC.countCancel [] = 0 :=
  ⟨rfl, rfl⟩

/-- C6, amended: only a failed TCP read (any I/O error, including EOF) makes
the session loop deliver a synthetic `Cancel` — exactly one, tagged with the
peer's address — before it exits with the `"disconnected"` error, whatever
the state of the outbound channel; and the spec-modelled coordinator, on
receiving a `Cancel` from a registered address, marks that peer
`Disconnected` (the `main.rs` coordinator's own `Cancel` arm is `todo!()`). -/
theorem c6_cancel_on_read_failure :
    (∀ (addr : Nat) (recvRes : PC.RecvResult),
      PC.sessionStep addr .err recvRes =
        ([⟨PeerMessageType.Cancel, [], addr⟩], .failed "disconnected") ∧
      PC.countCancel [⟨PeerMessageType.Cancel, [], addr⟩] = 1) ∧
    (∀ (c : Spec.Coord) (addr i : Nat), i < c.peers.length →
      (c.peers.getD i (0, Spec.freshPeer)).fst = addr →
      (((Spec.step c addr .cancel).peers.getD i (0, Spec.freshPeer)).snd).status =
        Spec.PeerStatus.disconnected) := by
  constructor
  · intro addr recvRes
    exact ⟨rfl, rfl⟩
  · intro c addr i hi hfst
    have h12 := phase12_at_addr c addr .cancel i hi hfst
    have hi' : i < (Spec.phase12 c addr .cancel).peers.length := by
      unfold Spec.phase12
      rw [List.length_map]
      unfold Spec.registerPeer
      split_ifs with hany
      · exact hi
      · rw [List.length_append]
        omega
    have hst : (((Spec.phase12 c addr .cancel).peers.getD i (0, Spec.freshPeer)).snd).status =
        Spec.PeerStatus.disconnected := by
      rw [h12]
      rfl
    exact phase345_disconnected (Spec.phase12 c addr .cancel) i hi' hst

/-- Witness for C6's amended claim: a read failure at address 3 yields the
single tagged `Cancel`, and a one-peer coordinator marks peer 7 disconnected
on the synthetic `Cancel`. -/
theorem c6_witness :
    (PC.sessionStep 3 .err .empty =
      ([⟨PeerMessageType.Cancel, [], 3⟩], .failed "disconnected") ∧
     PC.countCancel [⟨PeerMessageType.Cancel, [], 3⟩] = 1) ∧
    (((Spec.step c1Wc 7 .cancel).peers.getD 0 (0, Spec.freshPeer)).snd).status =
      Spec.PeerStatus.disconnected :=
  ⟨c6_cancel_on_read_failure.1 3 .empty,
   c6_cancel_on_read_failure.2 c1Wc 7 0 (by decide) (by decide)⟩

/-- C2: the coordinator of `main.rs` treats a decoded keep-alive as a `Choke`.
The 4-byte keep-alive frame decodes to `Data { message_id = 0, payload = [] }`,
`main.rs` converts `message_id = 0` with `PeerMessageType::from` to `Choke`,
and `handle_message` then sets `am_choked := true` — so a peer that was
unchoked is re-choked by a keep-alive, contradicting the claim that a
keep-alive leaves peer state completely unchanged. -/
theorem c2_keepalive_is_treated_as_choke :
    Codec.Data.decode [0, 0, 0, 0] = (some ⟨0, []⟩, []) ∧
    PeerMessageType.fromU8 0 = some .Choke ∧
    Main.handle_message ⟨true, false, false, false, []⟩ .Choke [] =
      some ⟨true, false, true, false, []⟩ ∧
    (⟨true, false, false, false, []⟩ : Main.PeerState).am_choked = false := by
  refine ⟨by decide, rfl, rfl, rfl⟩

/-- C9: processing a `Bitfield` message replaces the peer's bitfield with a
sequence of exactly `8 × payload length` booleans in which entry `8*i + j` is
the bit `j` (counted from the most significant bit) of payload byte `i`; in
particular entry 0 is the high bit of byte 0. -/
theorem c9_bitfield_replaces_msb_first (st : Main.PeerState) (payload : List Nat)
    (i j : Nat) (hi : i < payload.length) (hj : j < 8) :
    Main.handle_message st .Bitfield payload =
      some { st with bitfield := Main.process_bitfield payload } ∧
    (Main.process_bitfield payload).length = 8 * payload.length ∧
    (Main.process_bitfield payload).getD (8 * i + j) false =
      (payload.getD i 0).testBit (7 - j) := by
  exact ⟨rfl, process_bitfield_length payload, process_bitfield_getD payload i j hi hj⟩

/-- Witness for C9 at the bitfield payload `[0xC0, 0x00]` (16 pieces, first
two set): entry 0 reflects the high bit of byte 0. -/
theorem c9_witness :
    Main.handle_message {} .Bitfield [192, 0] =
      some { bitfield := Main.process_bitfield [192, 0] } ∧
    (Main.process_bitfield [192, 0]).length = 8 * ([192, 0] : List Nat).length ∧
    (Main.process_bitfield [192, 0]).getD (8 * 0 + 0) false =
      (([192, 0] : List Nat).getD 0 0).testBit (7 - 0) :=
  c9_bitfield_replaces_msb_first {} [192, 0] 0 0 (by decide) (by decide)

/-- C3: a wire message id outside `0..=9` never becomes a message type: the
conversion `PeerMessageType::from` refuses it (a panic aborting that
connection's task, modelled as `none`) and `Data::from_bytes` of
`peer_connection.rs` rejects the frame with the `"Bad message id"` protocol
error; no unknown code is silently mapped to a default variant. -/
theorem c3_unknown_id_rejected (v : Nat) (hv : 9 < v) :
    PeerMessageType.fromU8 v = none ∧
    ∀ (pre rest : List Nat), pre.length = 4 → readU32 pre ≠ 0 →
      PC.Data.from_bytes (pre ++ v :: rest) = .error "Bad message id" := by
  constructor
  · unfold PeerMessageType.fromU8
    repeat rw [if_neg (by omega)]
  · intro pre rest h4 hm
    have ht : (pre ++ v :: rest).take 4 = pre := List.take_left' h4
    have hd : (pre ++ v :: rest).drop 4 = v :: rest := List.drop_left' h4
    have hl : (pre ++ v :: rest).length = rest.length + 5 := by
      simp [List.length_append, h4]; omega
    unfold PC.Data.from_bytes
    rw [ht, hd, hl]
    rw [if_neg (by omega), if_neg hm, if_neg (by omega)]
    simp only [List.headD_cons]
    rw [if_pos hv]

/-- Witness for C3 at the unknown id 10 inside the frame
`00 00 00 05 0A ...`. -/
theorem c3_witness :
    PeerMessageType.fromU8 10 = none ∧
    PC.Data.from_bytes ([0, 0, 0, 5] ++ 10 :: [1, 2, 3, 4]) = .error "Bad message id" :=
  ⟨(c3_unknown_id_rejected 10 (by omega)).1,
   (c3_unknown_id_rejected 10 (by omega)).2 [0, 0, 0, 5] [1, 2, 3, 4] (by decide) (by decide)⟩

theorem parsePeers_length : ∀ (l : List Nat), l.length % 6 = 0 →
    (Tracker.parsePeers l).length = l.length / 6
  | [], _ => rfl
  | [a], h => by simp at h
  | [a, b], h => by simp at h
  | [a, b, c], h => by simp at h
  | [a, b, c, d], h => by simp at h
  | [a, b, c, d, e], h => by simp at h
  | a :: b :: c :: d :: e :: f :: rest, h => by
    have h6 : rest.length % 6 = 0 := by simp only [List.length_cons] at h; omega
    simp only [Tracker.parsePeers, List.length_cons, parsePeers_length rest h6]
    omega

theorem parsePeers_getD (i : Nat) (l : List Nat) (dl : Tracker.PeerAddr)
    (h : 6 * i + 6 ≤ l.length) :
    (Tracker.parsePeers l).getD i dl =
      ⟨l.getD (6*i) 0, l.getD (6*i+1) 0, l.getD (6*i+2) 0, l.getD (6*i+3) 0,
       l.getD (6*i+4) 0 * 256 + l.getD (6*i+5) 0⟩ := by
  induction i generalizing l with
  | zero =>
    match l, h with
    | a :: b :: c :: d :: e :: f :: rest, _ => rfl
  | succ i' ih =>
    match l, h with
    | a :: b :: c :: d :: e :: f :: rest, h =>
      have hr : 6 * i' + 6 ≤ rest.length := by
        simp only [List.length_cons] at h; omega
      have hfront : ∀ k, (a :: b :: c :: d :: e :: f :: rest).getD (6 * (i' + 1) + k) 0 =
          rest.getD (6 * i' + k) 0 := by
        intro k
        have hsplit : a :: b :: c :: d :: e :: f :: rest = [a,b,c,d,e,f] ++ rest := rfl
        rw [hsplit, show 6 * (i' + 1) + k = ([a,b,c,d,e,f] : List Nat).length + (6 * i' + k)
          from by simp; ring]
        exact getD_append_right _ _ _ _
      have hfront0 : (a :: b :: c :: d :: e :: f :: rest).getD (6 * (i' + 1)) 0 =
          rest.getD (6 * i') 0 := by simpa using hfront 0
      calc (Tracker.parsePeers (a :: b :: c :: d :: e :: f :: rest)).getD (i' + 1) dl
          = (Tracker.parsePeers rest).getD i' dl := rfl
        _ = _ := by
          rw [ih rest hr, hfront0, hfront 1, hfront 2, hfront 3, hfront 4, hfront 5]

/-- C5: for an announce-response datagram of `length` bytes, a peer-list tail
(everything past the 20-byte header) whose byte count is not a multiple of 6
is rejected as malformed (the `panic!` in the source, modelled as the error);
otherwise the response parses, and each consecutive 6-byte chunk of the tail
becomes one peer: four IPv4 octets followed by a big-endian u16 port. -/
theorem c5_announce_peer_list (bytes : List Nat) (length : Nat)
    (h20 : 20 ≤ length) (hlen : length ≤ bytes.length) :
    ((length - 20) % 6 ≠ 0 →
      Tracker.AnnounceResponse.from_bytes bytes length = .error "Invalid peer list size") ∧
    ((length - 20) % 6 = 0 →
      Tracker.AnnounceResponse.from_bytes bytes length =
        .ok ⟨readU32 (bytes.take 4), readU32 ((bytes.drop 4).take 4),
             readU32 ((bytes.drop 8).take 4), readU32 ((bytes.drop 12).take 4),
             readU32 ((bytes.drop 16).take 4),
             Tracker.parsePeers ((bytes.take length).drop 20)⟩ ∧
      (Tracker.parsePeers ((bytes.take length).drop 20)).length = (length - 20) / 6 ∧
      ∀ i, 6 * i + 6 ≤ length - 20 →
        (Tracker.parsePeers ((bytes.take length).drop 20)).getD i ⟨0, 0, 0, 0, 0⟩ =
          ⟨((bytes.take length).drop 20).getD (6*i) 0,
           ((bytes.take length).drop 20).getD (6*i+1) 0,
           ((bytes.take length).drop 20).getD (6*i+2) 0,
           ((bytes.take length).drop 20).getD (6*i+3) 0,
           ((bytes.take length).drop 20).getD (6*i+4) 0 * 256 +
             ((bytes.take length).drop 20).getD (6*i+5) 0⟩) := by
  have hpl : ((bytes.take length).drop 20).length = length - 20 := by
    simp only [List.length_drop, List.length_take]
    omega
  constructor
  · intro hne
    unfold Tracker.AnnounceResponse.from_bytes
    rw [if_pos (by rw [hpl]; exact hne)]
  · intro hmod
    refine ⟨?_, ?_, ?_⟩
    · unfold Tracker.AnnounceResponse.from_bytes
      rw [if_neg (by rw [hpl]; simpa using hmod)]
    · rw [parsePeers_length _ (by rw [hpl]; exact hmod), hpl]
    · intro i hle
      exact parsePeers_getD i _ _ (by rw [hpl]; exact hle)

/-- Witness for C5: a response of 27 bytes (7-byte tail) is rejected, and one
of 32 bytes with tail `0A 00 00 01 1A E1 0A 00 00 02 1A E2` parses the two
peers 10.0.0.1:6881 and 10.0.0.2:6882. -/
theorem c5_witness :
    Tracker.AnnounceResponse.from_bytes (List.replicate 20 0 ++ [1, 2, 3, 4, 5, 6, 7]) 27 =
      .error "Invalid peer list size" ∧
    (Tracker.parsePeers
        (((List.replicate 20 0 ++ [10, 0, 0, 1, 26, 225, 10, 0, 0, 2, 26, 226]).take 32).drop 20)).getD
        0 ⟨0, 0, 0, 0, 0⟩ =
      ⟨((List.replicate 20 0 ++ [10, 0, 0, 1, 26, 225, 10, 0, 0, 2, 26, 226]).take 32).drop 20 |>.getD 0 0,
       ((List.replicate 20 0 ++ [10, 0, 0, 1, 26, 225, 10, 0, 0, 2, 26, 226]).take 32).drop 20 |>.getD 1 0,
       ((List.replicate 20 0 ++ [10, 0, 0, 1, 26, 225, 10, 0, 0, 2, 26, 226]).take 32).drop 20 |>.getD 2 0,
       ((List.replicate 20 0 ++ [10, 0, 0, 1, 26, 225, 10, 0, 0, 2, 26, 226]).take 32).drop 20 |>.getD 3 0,
       (((List.replicate 20 0 ++ [10, 0, 0, 1, 26, 225, 10, 0, 0, 2, 26, 226]).take 32).drop 20 |>.getD 4 0) * 256 +
         (((List.replicate 20 0 ++ [10, 0, 0, 1, 26, 225, 10, 0, 0, 2, 26, 226]).take 32).drop 20 |>.getD 5 0)⟩ :=
  ⟨(c5_announce_peer_list (List.replicate 20 0 ++ [1, 2, 3, 4, 5, 6, 7]) 27
      (by decide) (by decide)).1 (by decide),
   ((c5_announce_peer_list (List.replicate 20 0 ++ [10, 0, 0, 1, 26, 225, 10, 0, 0, 2, 26, 226]) 32
      (by decide) (by decide)).2 (by decide)).2.2 0 (by decide)⟩

/-- C10: the tracker client never inspects the `action` field of connect or
announce responses.  Any 16-byte connect response whose transaction id
matches yields bytes 8..16 as the connection id regardless of its first four
bytes, and any announce response whose transaction id matches has its tail
parsed as a peer list regardless of its first four bytes (so an error
response with `action = 3` is parsed as peers, not reported as a tracker
error). -/
theorem c10_action_never_inspected :
    (∀ (action rest : List Nat) (tid : Nat), action.length = 4 →
      readU32 (rest.take 4) = tid →
      Tracker.handshakeValidate (action ++ rest) tid = .ok (readI64 ((rest.drop 4).take 8))) ∧
    (∀ (action rest : List Nat) (length tid : Nat), action.length = 4 → 20 ≤ length →
      readU32 (rest.take 4) = tid →
      ((rest.take (length - 4)).drop 16).length % 6 = 0 →
      Tracker.announceValidate (action ++ rest) length tid =
        .ok (Tracker.parsePeers ((rest.take (length - 4)).drop 16))) := by
  constructor
  · intro action rest tid h4 htid
    have hd4 : (action ++ rest).drop 4 = rest := List.drop_left' h4
    have hd8 : (action ++ rest).drop 8 = rest.drop 4 := by
      have h := @List.drop_append Nat action rest 4
      rwa [show action.length + 4 = 8 from by omega] at h
    dsimp only [Tracker.handshakeValidate, Tracker.ConnectResponse.from_bytes]
    rw [hd4, hd8, htid, if_neg (by simp)]
  · intro action rest length tid h4 h20 htid hmod
    have h1 : (action ++ rest).take length = action ++ rest.take (length - 4) := by
      have h := @List.take_append Nat action rest (length - 4)
      rwa [show action.length + (length - 4) = length from by omega] at h
    have h2 : (action ++ rest.take (length - 4)).drop 20 = (rest.take (length - 4)).drop 16 := by
      have h := @List.drop_append Nat action (rest.take (length - 4)) 16
      rwa [show action.length + 16 = 20 from by omega] at h
    have hd4 : (action ++ rest).drop 4 = rest := List.drop_left' h4
    dsimp only [Tracker.announceValidate, Tracker.AnnounceResponse.from_bytes]
    rw [h1, h2, if_neg (by simpa using hmod)]
    dsimp only
    rw [hd4, htid, if_neg (by simp)]

/-- Witness for C10: a connect response with `action = 7` is accepted and a
26-byte announce response with `action = 3` (the error action) has its 6-byte
tail parsed as the peer 10.0.0.1:6881. -/
theorem c10_witness :
    Tracker.handshakeValidate
        ([0, 0, 0, 7] ++ ([170, 187, 204, 221] ++ [17, 34, 51, 68, 85, 102, 119, 136]))
        2864434397 =
      .ok (readI64 ((([170, 187, 204, 221] ++ [17, 34, 51, 68, 85, 102, 119, 136] :
        List Nat).drop 4).take 8)) ∧
    Tracker.announceValidate
        ([0, 0, 0, 3] ++ ([0, 0, 0, 1] ++ [0, 0, 0, 0, 0, 0, 0, 0, 0, 0, 0, 0] ++
          [10, 0, 0, 1, 26, 225])) 26 1 =
      .ok (Tracker.parsePeers ((([0, 0, 0, 1] ++ [0, 0, 0, 0, 0, 0, 0, 0, 0, 0, 0, 0] ++
        [10, 0, 0, 1, 26, 225] : List Nat).take (26 - 4)).drop 16)) :=
  ⟨c10_action_never_inspected.1 [0, 0, 0, 7]
      ([170, 187, 204, 221] ++ [17, 34, 51, 68, 85, 102, 119, 136]) 2864434397
      (by decide) (by decide),
   c10_action_never_inspected.2 [0, 0, 0, 3]
      ([0, 0, 0, 1] ++ [0, 0, 0, 0, 0, 0, 0, 0, 0, 0, 0, 0] ++ [10, 0, 0, 1, 26, 225]) 26 1
      (by decide) (by decide) (by decide) (by decide)⟩

theorem data_encode_wrap (d : Codec.Data) (h : (1 + d.payload.length) % 4294967296 = 0) :
    Codec.Data.encode d = 0 :: 0 :: 0 :: 0 :: d.message_id % 256 :: d.payload := by
  unfold Codec.Data.encode
  rw [h]
  rfl

theorem data_decode_keepalive (bytes : List Nat) (h4 : ¬ bytes.length < 4)
    (h0 : readU32 (bytes.take 4) = 0) :
    Codec.Data.decode bytes = (some ⟨0, []⟩, bytes.drop 4) := by
  unfold Codec.Data.decode
  rw [if_neg h4, h0, if_pos rfl]

theorem readU32_writeU32 (n : Nat) (h : n < 4294967296) : readU32 (writeU32 n) = n := by
  show n / 16777216 % 256 * 16777216 + n / 65536 % 256 * 65536 +
    n / 256 % 256 * 256 + n % 256 = n
  omega

theorem handshake_decode_valid (bytes : List Nat) (hl : bytes.length = 68)
    (h19 : bytes.headD 0 = 19)
    (hp : (bytes.drop 1).take 19 = Codec.BITTORRENT_PROTOCOL) :
    Codec.Handshake.decode bytes =
      (.ok (some ⟨Codec.BITTORRENT_PROTOCOL, (bytes.drop 28).take 20,
        (bytes.drop 48).take 20⟩), []) := by
  unfold Codec.Handshake.decode
  rw [if_neg (by omega), if_neg (by rw [h19]; simp), if_neg (by rw [hp]; simp)]
  rw [hp]
  simp only [List.drop_drop]
  norm_num
  omega

/-- C4: handshake decoding is a three-way split on the buffer — fewer than 68
bytes is incomplete (nothing consumed), a 68-byte buffer whose first byte is
19 and whose next 19 bytes are the ASCII literal `"BitTorrent protocol"`
yields exactly one `Handshake` frame consuming all 68 bytes, and a buffer of
at least 68 bytes failing either of those two checks is a protocol error,
not incomplete. -/
theorem c4_handshake_three_way_split :
    (∀ bytes : List Nat, bytes.length < 68 →
      Codec.Handshake.decode bytes = (.ok none, bytes)) ∧
    (∀ bytes : List Nat, bytes.length = 68 → bytes.headD 0 = 19 →
      (bytes.drop 1).take 19 = Codec.BITTORRENT_PROTOCOL →
      Codec.Handshake.decode bytes =
        (.ok (some ⟨Codec.BITTORRENT_PROTOCOL, (bytes.drop 28).take 20,
          (bytes.drop 48).take 20⟩), [])) ∧
    (∀ bytes : List Nat, 68 ≤ bytes.length →
      (bytes.headD 0 ≠ 19 ∨ (bytes.drop 1).take 19 ≠ Codec.BITTORRENT_PROTOCOL) →
      Codec.Handshake.decode bytes = (.error (), bytes)) := by
  refine ⟨?_, ?_, ?_⟩
  · intro bytes h
    unfold Codec.Handshake.decode
    rw [if_pos h]
  · intro bytes hl h19 hp
    exact handshake_decode_valid bytes hl h19 hp
  · intro bytes hl hbad
    unfold Codec.Handshake.decode
    rcases hbad with hb | hb
    · rw [if_neg (by omega), if_pos hb]
    · by_cases h19 : bytes.headD 0 = 19
      · rw [if_neg (by omega), if_neg (by rw [h19]; simp), if_pos hb]
      · rw [if_neg (by omega), if_pos h19]

/-- Witness for C4: a 67-byte buffer is incomplete; the 68-byte buffer of the
happy-handshake scenario decodes to one frame with nothing left over; a
68-byte buffer starting with a zero byte is a protocol error. -/
theorem c4_witness :
    Codec.Handshake.decode (List.replicate 67 0) = (.ok none, List.replicate 67 0) ∧
    Codec.Handshake.decode
        (19 :: Codec.BITTORRENT_PROTOCOL ++ List.replicate 8 0 ++
          List.replicate 20 17 ++ List.replicate 20 34) =
      (.ok (some ⟨Codec.BITTORRENT_PROTOCOL,
        ((19 :: Codec.BITTORRENT_PROTOCOL ++ List.replicate 8 0 ++
          List.replicate 20 17 ++ List.replicate 20 34).drop 28).take 20,
        ((19 :: Codec.BITTORRENT_PROTOCOL ++ List.replicate 8 0 ++
          List.replicate 20 17 ++ List.replicate 20 34).drop 48).take 20⟩), []) ∧
    Codec.Handshake.decode (List.replicate 68 0) = (.error (), List.replicate 68 0) :=
  ⟨c4_handshake_three_way_split.1 (List.replicate 67 0) (by decide),
   c4_handshake_three_way_split.2.1
     (19 :: Codec.BITTORRENT_PROTOCOL ++ List.replicate 8 0 ++
       List.replicate 20 17 ++ List.replicate 20 34) (by decide) (by decide) (by decide),
   c4_handshake_three_way_split.2.2 (List.replicate 68 0) (by decide)
     (Or.inl (by decide))⟩

/-- C7, counterexample: the round-trip law fails as stated.  A `Handshake`
whose `pstr` is the valid 19-byte literal but whose `info_hash` and `peer_id`
are empty encodes to 28 bytes, which decode to incomplete, not to the
handshake; and a `Data` frame with id 1 and a payload of `2^32 - 1` bytes has
its length prefix wrap to 0 (the `as u32` cast), so its encoding decodes to
the keep-alive `Data { message_id = 0, payload = [] }`, not to the frame. -/
theorem c7_counterexample :
    (⟨Codec.BITTORRENT_PROTOCOL, [], []⟩ : Codec.Handshake).pstr =
      Codec.BITTORRENT_PROTOCOL ∧
    Codec.Handshake.decode (Codec.Handshake.encode ⟨Codec.BITTORRENT_PROTOCOL, [], []⟩) =
      (.ok none, Codec.Handshake.encode ⟨Codec.BITTORRENT_PROTOCOL, [], []⟩) ∧
    (⟨1, List.replicate 4294967295 0⟩ : Codec.Data).message_id = 1 ∧
    (Codec.Data.decode (Codec.Data.encode ⟨1, List.replicate 4294967295 0⟩)).fst =
      some ⟨0, []⟩ := by
  refine ⟨rfl, rfl, rfl, ?_⟩
  have henc := data_encode_wrap ⟨1, List.replicate 4294967295 0⟩
    (by rw [show ((⟨1, List.replicate 4294967295 0⟩ : Codec.Data)).payload.length =
      (List.replicate 4294967295 (0 : Nat)).length from rfl, List.length_replicate])
  rw [henc]
  have hdec := data_decode_keepalive (0 :: 0 :: 0 :: 0 :: 1 % 256 :: List.replicate 4294967295 0)
    (by rw [List.length_cons, List.length_cons, List.length_cons, List.length_cons,
      List.length_cons, List.length_replicate]; omega)
    (by rfl)
  rw [hdec]

/-- C7, amended: the round-trip laws hold for every `Handshake` whose `pstr`
is the 19-byte literal and whose `info_hash` and `peer_id` are 20 bytes each
(the shape of every handshake of the data model), and for every `Data` frame
with id in `0..=9` whose payload is shorter than `2^32 - 1` bytes (so the u32
length prefix does not wrap). -/
theorem c7_roundtrip_amended :
    (∀ h : Codec.Handshake, h.pstr = Codec.BITTORRENT_PROTOCOL →
      h.info_hash.length = 20 → h.peer_id.length = 20 →
      Codec.Handshake.decode h.encode = (.ok (some h), [])) ∧
    (∀ d : Codec.Data, d.message_id ≤ 9 → d.payload.length + 1 < 4294967296 →
      Codec.Data.decode d.encode = (some d, [])) := by
  constructor
  · intro h hp hi hpe
    have hl19 : Codec.BITTORRENT_PROTOCOL.length = 19 := by decide
    have henc : Codec.Handshake.encode h =
        19 :: (Codec.BITTORRENT_PROTOCOL ++ List.replicate 8 0 ++ h.info_hash ++ h.peer_id) := by
      unfold Codec.Handshake.encode
      rw [hp, hl19, show (19 : Nat) % 256 = 19 from rfl]
      simp [List.cons_append]
    have hlen : (19 :: (Codec.BITTORRENT_PROTOCOL ++ List.replicate 8 0 ++
        h.info_hash ++ h.peer_id) : List Nat).length = 68 := by
      simp [hi, hpe, hl19]
    have hd1 : (19 :: (Codec.BITTORRENT_PROTOCOL ++ List.replicate 8 0 ++
        h.info_hash ++ h.peer_id) : List Nat).drop 1 =
        Codec.BITTORRENT_PROTOCOL ++ List.replicate 8 0 ++ h.info_hash ++ h.peer_id := rfl
    have hp27 : (Codec.BITTORRENT_PROTOCOL ++ List.replicate 8 0 : List Nat).length = 27 := by
      decide
    have hassoc : Codec.BITTORRENT_PROTOCOL ++ List.replicate 8 0 ++ h.info_hash ++ h.peer_id =
        (Codec.BITTORRENT_PROTOCOL ++ List.replicate 8 0) ++ (h.info_hash ++ h.peer_id) := by
      simp [List.append_assoc]
    have htake : ((19 :: (Codec.BITTORRENT_PROTOCOL ++ List.replicate 8 0 ++
        h.info_hash ++ h.peer_id) : List Nat).drop 1).take 19 = Codec.BITTORRENT_PROTOCOL := by
      rw [hd1, hassoc, List.append_assoc]
      rw [List.take_append_of_le_length (by rw [hl19])]
      exact List.take_left' hl19
    have hd28 : (19 :: (Codec.BITTORRENT_PROTOCOL ++ List.replicate 8 0 ++
        h.info_hash ++ h.peer_id) : List Nat).drop 28 = h.info_hash ++ h.peer_id := by
      rw [show (28 : Nat) = 1 + 27 from rfl, ← List.drop_drop, hd1, hassoc]
      exact List.drop_left' hp27
    have hd48 : (19 :: (Codec.BITTORRENT_PROTOCOL ++ List.replicate 8 0 ++
        h.info_hash ++ h.peer_id) : List Nat).drop 48 = h.peer_id := by
      rw [show (48 : Nat) = 28 + 20 from rfl, ← List.drop_drop, hd28]
      exact List.drop_left' hi
    rw [henc, handshake_decode_valid _ hlen rfl htake, hd28, hd48]
    rw [List.take_left' hi, List.take_of_length_le (by omega), ← hp]
  · intro d hid hlen
    have henc : Codec.Data.encode d =
        writeU32 (1 + d.payload.length) ++ d.message_id :: d.payload := by
      unfold Codec.Data.encode
      rw [Nat.mod_eq_of_lt (by omega), Nat.mod_eq_of_lt (show d.message_id < 256 by omega)]
    have hw4 : (writeU32 (1 + d.payload.length)).length = 4 := rfl
    have ht4 : (writeU32 (1 + d.payload.length) ++ d.message_id :: d.payload).take 4 =
        writeU32 (1 + d.payload.length) := List.take_left' hw4
    have hd4 : (writeU32 (1 + d.payload.length) ++ d.message_id :: d.payload).drop 4 =
        d.message_id :: d.payload := List.drop_left' hw4
    have hru : readU32 (writeU32 (1 + d.payload.length)) = 1 + d.payload.length :=
      readU32_writeU32 _ (by omega)
    rw [henc]
    unfold Codec.Data.decode
    rw [if_neg (by rw [List.length_append, hw4]; omega)]
    rw [ht4, hru, hd4]
    rw [if_neg (by omega), if_neg (by simp only [List.length_cons]; omega)]
    have hL : 1 + d.payload.length - 1 = d.payload.length := by omega
    rw [show ((d.message_id :: d.payload : List Nat)).headD 0 = d.message_id from rfl,
        show ((d.message_id :: d.payload : List Nat)).drop 1 = d.payload from rfl, hL,
        List.take_of_length_le (le_refl _), List.drop_eq_nil_iff.mpr (le_refl _)]

theorem data_decode_none_eq (buf b : List Nat) (h : Codec.Data.decode buf = (none, b)) :
    b = buf := by
  unfold Codec.Data.decode at h
  split_ifs at h <;> simp_all

theorem hs_decode_none_eq (buf b : List Nat)
    (h : Codec.Handshake.decode buf = (.ok none, b)) : b = buf := by
  unfold Codec.Handshake.decode at h
  split_ifs at h <;> simp_all

theorem hs_decode_error_eq (buf b : List Nat) (e : Unit)
    (h : Codec.Handshake.decode buf = (.error e, b)) : b = buf := by
  unfold Codec.Handshake.decode at h
  split_ifs at h <;> simp_all

theorem data_decode_some_cases (buf : List Nat) (d : Codec.Data) (b : List Nat)
    (h : Codec.Data.decode buf = (some d, b)) :
    (¬ buf.length < 4 ∧ readU32 (buf.take 4) = 0 ∧ d = ⟨0, []⟩ ∧ b = buf.drop 4) ∨
    (¬ buf.length < 4 ∧ readU32 (buf.take 4) ≠ 0 ∧
      ¬ (buf.drop 4).length < readU32 (buf.take 4) ∧
      d = ⟨(buf.drop 4).headD 0, ((buf.drop 4).drop 1).take (readU32 (buf.take 4) - 1)⟩ ∧
      b = ((buf.drop 4).drop 1).drop (readU32 (buf.take 4) - 1)) := by
  unfold Codec.Data.decode at h
  split_ifs at h with h1 h2 h3
  · simp at h
  · left
    refine ⟨h1, h2, ?_, ?_⟩ <;> simp_all
  · simp at h
  · right
    refine ⟨h1, h2, h3, ?_, ?_⟩ <;> simp_all

theorem data_decode_none_reason (buf b : List Nat) (h : Codec.Data.decode buf = (none, b))
    (h4 : ¬ buf.length < 4) :
    readU32 (buf.take 4) ≠ 0 ∧ (buf.drop 4).length < readU32 (buf.take 4) := by
  unfold Codec.Data.decode at h
  split_ifs at h with h1 h2
  · simp at h
  · exact ⟨h1, h2⟩
  · simp at h

theorem hs_decode_some_cases (buf : List Nat) (hs : Codec.Handshake) (b : List Nat)
    (h : Codec.Handshake.decode buf = (.ok (some hs), b)) :
    ¬ buf.length < 68 ∧ buf.headD 0 = 19 ∧
    (buf.drop 1).take 19 = Codec.BITTORRENT_PROTOCOL ∧
    hs = ⟨Codec.BITTORRENT_PROTOCOL, (buf.drop 28).take 20, (buf.drop 48).take 20⟩ ∧
    b = buf.drop 68 := by
  unfold Codec.Handshake.decode at h
  split_ifs at h with h1 h2 h3
  · simp at h
  · simp at h
  · simp at h
  · rw [not_not] at h2 h3
    refine ⟨h1, h2, h3, ?_, ?_⟩
    · have hhs := ((Prod.mk.injEq _ _ _ _).mp h).1
      simp only [Except.ok.injEq, Option.some.injEq] at hhs
      rw [← hhs, h3]
      congr 1 <;> simp only [List.drop_drop]
    · have hb := ((Prod.mk.injEq _ _ _ _).mp h).2
      rw [← hb]
      simp only [List.drop_drop]

theorem data_decode_take_keepalive (buf : List Nat) (h4 : ¬ buf.length < 4)
    (h0 : readU32 (buf.take 4) = 0) :
    Codec.Data.decode (buf.take 4) = (some ⟨0, []⟩, []) := by
  have h := data_decode_keepalive (buf.take 4)
    (by rw [List.length_take]; omega)
    (by rw [List.take_take]; exact h0)
  have hnil : (buf.take 4).drop 4 = ([] : List Nat) := by
    rw [List.drop_eq_nil_iff, List.length_take]
    omega
  rw [h, hnil]

theorem data_decode_take_frame (buf : List Nat) (m : Nat) (hm : readU32 (buf.take 4) = m)
    (h0 : m ≠ 0) (hle : 4 + m ≤ buf.length) :
    Codec.Data.decode (buf.take (4 + m)) =
      (some ⟨(buf.drop 4).headD 0, ((buf.drop 4).drop 1).take (m - 1)⟩, []) := by
  have t4 : (buf.take (4 + m)).take 4 = buf.take 4 := by
    rw [List.take_take]
    congr 1
    omega
  have hlen : (buf.take (4 + m)).length = 4 + m := by
    rw [List.length_take]
    omega
  have hd4 : (buf.take (4 + m)).drop 4 = (buf.drop 4).take m := by
    rw [List.drop_take]
    congr 1
    omega
  unfold Codec.Data.decode
  rw [t4, hm, hlen, hd4]
  rw [if_neg (by omega), if_neg h0,
    if_neg (by rw [List.length_take]; simp only [List.length_drop]; omega)]
  have hd1 : ((buf.drop 4).take m).drop 1 = ((buf.drop 4).drop 1).take (m - 1) := by
    rw [List.drop_take]
  have hhd : ((buf.drop 4).take m).headD 0 = (buf.drop 4).headD 0 :=
    headD_take _ _ _ (by omega)
  have hnil : (((buf.drop 4).drop 1).take (m - 1)).drop (m - 1) = ([] : List Nat) := by
    rw [List.drop_eq_nil_iff, List.length_take]
    omega
  rw [hd1, hhd, List.take_take, Nat.min_self, hnil]

theorem hs_decode_take (buf : List Nat) (h68 : ¬ buf.length < 68) (h19 : buf.headD 0 = 19)
    (hp : (buf.drop 1).take 19 = Codec.BITTORRENT_PROTOCOL) :
    Codec.Handshake.decode (buf.take 68) =
      (.ok (some ⟨Codec.BITTORRENT_PROTOCOL, (buf.drop 28).take 20, (buf.drop 48).take 20⟩),
       []) := by
  have hlen : (buf.take 68).length = 68 := by
    rw [List.length_take]
    omega
  have hhead : (buf.take 68).headD 0 = 19 := by
    rw [headD_take _ _ _ (by omega)]
    exact h19
  have hp' : ((buf.take 68).drop 1).take 19 = Codec.BITTORRENT_PROTOCOL := by
    rw [List.drop_take, List.take_take, show min 19 (68 - 1) = 19 from by norm_num]
    exact hp
  have h := handshake_decode_valid (buf.take 68) hlen hhead hp'
  rw [h]
  have e28 : ((buf.take 68).drop 28).take 20 = (buf.drop 28).take 20 := by
    rw [List.drop_take, List.take_take]
    norm_num
  have e48 : ((buf.take 68).drop 48).take 20 = (buf.drop 48).take 20 := by
    rw [List.drop_take, List.take_take]
    norm_num
  rw [e28, e48]

/-- C8: a single call of the codec's decode on any buffer either returns one
frame having consumed exactly that frame's bytes from the front (the consumed
prefix alone decodes to exactly that frame with nothing left over), or
returns incomplete with the buffer byte-for-byte unchanged, or returns a
protocol error (also leaving the buffer unchanged); in the incomplete case no
bytes are consumed. -/
theorem c8_decode_consumes_frame_or_nothing (buf : List Nat) :
    Codec.PeerCodec.decode buf = (.ok none, buf) ∨
    Codec.PeerCodec.decode buf = (.error (), buf) ∨
    ∃ f n, n ≤ buf.length ∧
      Codec.PeerCodec.decode buf = (.ok (some f), buf.drop n) ∧
      Codec.PeerCodec.decode (buf.take n) = (.ok (some f), []) := by
  rcases hD : Codec.Data.decode buf with ⟨od, b1⟩
  rcases od with _ | d
  · have hb1 : b1 = buf := data_decode_none_eq buf b1 hD
    subst hb1
    rcases hH : Codec.Handshake.decode b1 with ⟨r, b2⟩
    rcases r with e | oh
    · have hb2 : b2 = b1 := hs_decode_error_eq b1 b2 e hH
      right; left
      subst hb2
      cases e
      simp only [Codec.PeerCodec.decode, hD, hH]
    · rcases oh with _ | hs
      · have hb2 : b2 = b1 := hs_decode_none_eq b1 b2 hH
        left
        subst hb2
        simp only [Codec.PeerCodec.decode, hD, hH]
      · obtain ⟨h68, h19, hp, hhs, hb2⟩ := hs_decode_some_cases b1 hs b2 hH
        right; right
        refine ⟨.handshake hs, 68, by omega, ?_, ?_⟩
        · simp only [Codec.PeerCodec.decode, hD, hH, hb2]
        · have hDt : Codec.Data.decode (b1.take 68) = (none, b1.take 68) := by
            obtain ⟨hm0, hlt⟩ := data_decode_none_reason b1 b1 hD (by omega)
            unfold Codec.Data.decode
            rw [if_neg (by rw [List.length_take]; omega)]
            rw [List.take_take, show min 4 68 = 4 from by norm_num]
            rw [if_neg hm0]
            rw [if_pos (show ((b1.take 68).drop 4).length < readU32 (b1.take 4) from by
              rw [List.drop_take, List.length_take]
              simp only [List.length_drop] at hlt ⊢
              omega)]
          have hHt := hs_decode_take b1 h68 h19 hp
          simp only [Codec.PeerCodec.decode, hDt, hHt, hhs]
  · obtain hc := data_decode_some_cases buf d b1 hD
    right; right
    rcases hc with ⟨h4, h0, hd, hb⟩ | ⟨h4, h0, hlt, hd, hb⟩
    · refine ⟨.data d, 4, by omega, ?_, ?_⟩
      · simp only [Codec.PeerCodec.decode, hD, hb]
      · have ht := data_decode_take_keepalive buf h4 h0
        simp only [Codec.PeerCodec.decode, ht, hd]
    · refine ⟨.data d, 4 + readU32 (buf.take 4), ?_, ?_, ?_⟩
      · simp only [List.length_drop] at hlt
        omega
      · simp only [Codec.PeerCodec.decode, hD]
        rw [hb]
        have hdd : ((buf.drop 4).drop 1).drop (readU32 (buf.take 4) - 1) =
            buf.drop (4 + readU32 (buf.take 4)) := by
          simp only [List.drop_drop]
          congr 1
          omega
        rw [hdd]
      · have ht := data_decode_take_frame buf (readU32 (buf.take 4)) rfl h0
          (by simp only [List.length_drop] at hlt; omega)
        simp only [Codec.PeerCodec.decode, ht, hd]

/-- Witness for C7's amended law at the happy-handshake frame and the repo's
own data-frame test (`id 5`, 19-byte payload). -/
theorem c7_witness :
    Codec.Handshake.decode
        (Codec.Handshake.encode
          ⟨Codec.BITTORRENT_PROTOCOL, List.replicate 20 17, List.replicate 20 34⟩) =
      (.ok (some ⟨Codec.BITTORRENT_PROTOCOL, List.replicate 20 17, List.replicate 20 34⟩), []) ∧
    Codec.Data.decode (Codec.Data.encode ⟨5, List.replicate 19 1⟩) =
      (some ⟨5, List.replicate 19 1⟩, []) :=
  ⟨c7_roundtrip_amended.1 ⟨Codec.BITTORRENT_PROTOCOL, List.replicate 20 17, List.replicate 20 34⟩
      rfl (by decide) (by decide),
   c7_roundtrip_amended.2 ⟨5, List.replicate 19 1⟩ (by decide) (by decide)⟩
